import Mathlib

/-!
Verification development for the credits-sdk core ledger.

The ledger client (src/client.ts) stores, per user u, a cached balance under
the key "balance:u" (a scalar) and an append-only transaction log under the
key "txs:u" (a sorted set scored by timestamp).  Mutations run as atomic Lua
scripts.  This file gives a shallow embedding of that client, of the pricing
engine (src/pricing.ts), and of the transaction-query method both as it
appears in src/client.ts and as it appears in the built client shipped in
dist/index.d.ts (which postdates src/client.ts: it adds limit validation, a
1000-entry cap, and a rank-based query path).

Modelling conventions:
- JavaScript numbers are modelled as exact rationals plus the special values
  NaN and the two infinities (JSNum).  Double rounding is not modelled; all
  quantities in the claims are small integers, where doubles are exact.
- The two Redis key families "balance:..." and "txs:..." can never collide
  (they differ in their first character), so the store keeps them as two
  separate finite maps.
- The sorted set is kept as a list in insertion order.  Client operations
  append with the current timestamp, so as long as successive timestamps are
  nondecreasing the list coincides with Redis's score order; theorems about
  query ordering carry an explicit strict-sortedness hypothesis.  ZADD on an
  already-present member (same serialized transaction) is a no-op, which the
  model mirrors.
- Lua's tostring on numbers uses the %.14g format; the model renders it
  exactly for natural numbers below 10^14 (where %.14g prints plain digits)
  and leaves other values as an explicit out-of-envelope marker.  Theorems
  about the insufficiency error message stay inside that envelope.
-/

namespace CreditsSDK

/-- A JavaScript number: an exact rational, or one of the special values. -/
inductive JSNum where
  | num (q : ℚ)
  | nan
  | posInf
  | negInf
deriving DecidableEq

/-- The test `x <= 0` on a JS number (false on NaN). -/
def JSNum.leZero : JSNum → Bool
  | .num q => decide (q ≤ 0)
  | .nan => false
  | .posInf => false
  | .negInf => true

/-- The test `x < 0` on a JS number (false on NaN). -/
def JSNum.ltZero : JSNum → Bool
  | .num q => decide (q < 0)
  | .nan => false
  | .posInf => false
  | .negInf => true

/-- Number.isFinite. -/
def JSNum.isFinite : JSNum → Bool
  | .num _ => true
  | _ => false

/-- Transaction metadata: an open key-value map, values being JS numbers or
strings are all the ledger ever stores; the ledger treats it as opaque. -/
def Meta : Type := List (String × ℚ)

instance : DecidableEq Meta := by
  unfold Meta
  infer_instance

/-- A ledger transaction record (types.ts, interface Transaction). -/
structure Transaction where
  id : String
  amount : ℚ
  action : String
  meta : Option Meta
  timestamp : ℕ
deriving DecidableEq

/-- Result of a successful mutation (types.ts, interface TransactionResult). -/
structure TxResult where
  txId : String
  balance : ℚ
  timestamp : ℕ
deriving DecidableEq

/-- Result of verifyBalance (types.ts, interface BalanceVerification). -/
structure BalanceVerification where
  valid : Bool
  cached : ℚ
  calculated : ℚ
  difference : ℚ
deriving DecidableEq

/-- The error classes of errors.ts, as a tagged sum. -/
inductive CreditsError where
  | transactionError (message : String) (txId : Option String)
  | insufficientCredits (required : ℚ) (available : ℚ)
  | balanceVerificationError (message : String) (userId : String)
      (cached : ℚ) (calculated : ℚ)
  | pricingConfigError (message : String) (action : Option String)
deriving DecidableEq

/-- Whitespace for the purposes of JS trim and the regex class backslash-s
(ASCII part; none of the claims involve non-ASCII whitespace). -/
def isWsCh (c : Char) : Bool :=
  c == ' ' || c == '\t' || c == '\n' || c == '\r' || c == '\x0b' || c == '\x0c'

/-- JS String.prototype.trim on the character list. -/
def jsTrim (cs : List Char) : List Char :=
  ((cs.dropWhile isWsCh).reverse.dropWhile isWsCh).reverse

/-- validateUserId (client.ts): rejects empty, whitespace-only, overlong, and
newline-carrying user ids, via TransactionError. -/
def validateUserId (userId : String) : Option CreditsError :=
  if userId.data = [] then
    some (.transactionError "userId is required and must be a string" none)
  else
    let t := jsTrim userId.data
    if t = [] then
      some (.transactionError "userId cannot be empty or whitespace" none)
    else if 256 < t.length then
      some (.transactionError "userId cannot exceed 256 characters" none)
    else if t.contains '\n' || t.contains '\r' then
      some (.transactionError "userId cannot contain newline characters" none)
    else none

/-- The action-string check shared by deduct and add (client.ts): the action
must be a non-empty, non-whitespace string. -/
def validateAction (action : String) : Option CreditsError :=
  if action.data = [] then
    some (.transactionError "action is required and must be a non-empty string" none)
  else if jsTrim action.data = [] then
    some (.transactionError "action is required and must be a non-empty string" none)
  else none

/-- Decimal digit character for a digit value below ten. -/
def digitCh : ℕ → Char
  | 0 => '0'
  | 1 => '1'
  | 2 => '2'
  | 3 => '3'
  | 4 => '4'
  | 5 => '5'
  | 6 => '6'
  | 7 => '7'
  | 8 => '8'
  | _ => '9'

/-- Decimal digit characters of a natural number, most significant first. -/
def natChars (n : ℕ) : List Char :=
  if n = 0 then ['0'] else ((Nat.digits 10 n).map digitCh).reverse

/-- Value of a digit character. -/
def charVal (c : Char) : ℕ := c.toNat - 48

/-- Decimal value of a digit-character run (how parseFloat reads the integer
or the fractional digit block of a capture). -/
def parseNatChars (cs : List Char) : ℕ :=
  cs.foldl (fun a c => 10 * a + charVal c) 0

/-- Lua tostring of the balance, modelled exactly on the envelope of natural
numbers below 10^14, where the %.14g format prints plain decimal digits.
Other values (negative, fractional, or huge balances, none of which arise in
the claims) are left as an explicit marker. -/
def qLuaStr (q : ℚ) : String :=
  if q.den = 1 ∧ 0 ≤ q.num ∧ q.num < 10 ^ 14 then
    String.mk (natChars q.num.toNat)
  else
    "(out-of-envelope number format)"

/-- The literal the deduction script puts in its error reply. -/
def icLit : List Char := "INSUFFICIENT_CREDITS".data

/-- The literal minus its head character. -/
def icTail : List Char := "NSUFFICIENT_CREDITS".data

/-- Drops a literal from the head of a character list, returning the
remainder on a full match. -/
def dropLit : List Char → List Char → Option (List Char)
  | [], cs => some cs
  | _ :: _, [] => none
  | p :: ps, c :: cs => if c = p then dropLit ps cs else none

/-- JS String.prototype.includes for the INSUFFICIENT_CREDITS literal. -/
def icContains : List Char → Bool
  | [] => false
  | c :: cs => (dropLit icLit (c :: cs)).isSome || icContains cs

/-- The tail of the regex in deduct's catch clause, after the literal:
an optional colon, optional whitespace, then one capture of digits with an
optional fractional part.  Returns the integer and fractional digit runs. -/
def capAfter (cs : List Char) : Option (List Char × List Char) :=
  let cs1 := match cs with
    | ':' :: r => r
    | r => r
  let cs2 := cs1.dropWhile isWsCh
  let ds := cs2.takeWhile Char.isDigit
  if ds = [] then none
  else
    match cs2.dropWhile Char.isDigit with
    | '.' :: r2 =>
      let fs := r2.takeWhile Char.isDigit
      if fs = [] then some (ds, []) else some (ds, fs)
    | _ => some (ds, [])

/-- One position of the regex search: if the literal matched here, try the
capture; otherwise (or when the capture fails) fall through to the
continuation, which resumes at the next position. -/
def scanStep (ro : Option (List Char)) (k : Option (List Char × List Char)) :
    Option (List Char × List Char) :=
  match ro with
  | some rest =>
    match capAfter rest with
    | some cap => some cap
    | none => k
  | none => k

/-- First-match search of the insufficiency regex over the message, as
JS String.prototype.match performs it: at each position try the literal and
then the capture; on failure resume at the next position. -/
def scanMsg : List Char → Option (List Char × List Char)
  | [] => none
  | c :: cs => scanStep (dropLit icLit (c :: cs)) (scanMsg cs)

/-- The available balance deduct reports on insufficiency: the parseFloat of
the regex capture, with the string zero as the fallback when nothing was
captured (client.ts line 212). -/
def parseAvailable (msg : String) : ℚ :=
  match scanMsg msg.data with
  | some (ds, fs) => (parseNatChars ds : ℚ) + (parseNatChars fs : ℚ) / (10 : ℚ) ^ fs.length
  | none => 0

/-- The error message deduct's catch clause sees on insufficiency: the Lua
error reply, with the transport's ERR prefix. -/
def insufficientMsg (b : ℚ) : String :=
  "ERR " ++ "INSUFFICIENT_CREDITS" ++ (":" ++ qLuaStr b)

/-- Deduct's catch clause (client.ts lines 204-216): an insufficiency reply
becomes InsufficientCreditsError with the parsed available balance; any other
failure is wrapped as a TransactionError carrying the transaction id. -/
def handleDeductError (amount : ℚ) (txId : String) (msg : String) : CreditsError :=
  if icContains msg.data then
    .insufficientCredits amount (parseAvailable msg)
  else
    .transactionError ("Deduction failed: " ++ msg) (some txId)

/-- The remote store: the scalar keyspace (balances) and the sorted-set
keyspace (transaction logs).  The two key families never collide, so they
are kept apart. -/
structure Store where
  kv : String → Option ℚ
  zset : String → List Transaction

/-- Pointwise update of a keyed map. -/
def upd {α : Type} (f : String → α) (k : String) (v : α) : String → α :=
  fun k2 => if k2 = k then v else f k2

/-- The empty store. -/
def emptyStore : Store := ⟨fun _ => none, fun _ => []⟩

/-- Redis key for a user's cached balance. -/
def balKey (userId : String) : String := "balance:" ++ userId

/-- Redis key for a user's transaction log. -/
def txsKey (userId : String) : String := "txs:" ++ userId

/-- ZADD of one member: a no-op if the member is already present (then only
its score would be written, and the score is determined by the member's own
timestamp field here), an append otherwise. -/
def zadd (l : List Transaction) (tx : Transaction) : List Transaction :=
  if tx ∈ l then l else l ++ [tx]

/-- Sum of the amount fields of a log. -/
def txSum (l : List Transaction) : ℚ := (l.map Transaction.amount).sum

/-- The genesis transaction initializeUser builds (client.ts lines 59-67). -/
def genesisTx (X : ℚ) (txId : String) (ts : ℕ) : Transaction :=
  ⟨txId, X, "user_initialized", some [("starting_credits", X)], ts⟩

/-- initializeUser (client.ts lines 40-116).  The caller's starting credits
argument is taken already resolved against the configured default.  The
atomic script returns the existing balance untouched when the balance key is
present; otherwise it writes the starting balance and appends the genesis
transaction in the same step. -/
def initializeUser (s : Store) (userId : String) (credits : JSNum)
    (txId : String) (ts : ℕ) : Store × Except CreditsError TxResult :=
  match validateUserId userId with
  | some e => (s, .error e)
  | none =>
    match credits with
    | .negInf => (s, .error (.transactionError "Starting credits must be non-negative" none))
    | .nan => (s, .error (.transactionError "Starting credits must be a finite number" none))
    | .posInf => (s, .error (.transactionError "Starting credits must be a finite number" none))
    | .num X =>
      if X < 0 then
        (s, .error (.transactionError "Starting credits must be non-negative" none))
      else
        let tx : Transaction := genesisTx X txId ts
        match s.kv (balKey userId) with
        | some b => (s, .ok ⟨"already_initialized", b, ts⟩)
        | none =>
          (⟨upd s.kv (balKey userId) (some X),
            upd s.zset (txsKey userId) (zadd (s.zset (txsKey userId)) tx)⟩,
           .ok ⟨txId, X, ts⟩)

/-- deduct (client.ts lines 130-217).  Validation happens before the store is
touched; the atomic script reads the balance (absence as zero), aborts with
the insufficiency error reply when it is below the amount, and otherwise
decrements the balance and appends the negated-amount transaction. -/
def deduct (s : Store) (userId : String) (amount : JSNum) (action : String)
    (txId : String) (meta : Option Meta) (ts : ℕ) :
    Store × Except CreditsError TxResult :=
  match validateUserId userId with
  | some e => (s, .error e)
  | none =>
    match amount with
    | .negInf => (s, .error (.transactionError "Deduct amount must be positive and non-zero" none))
    | .nan => (s, .error (.transactionError "Deduct amount must be a finite number" none))
    | .posInf => (s, .error (.transactionError "Deduct amount must be a finite number" none))
    | .num a =>
      if a ≤ 0 then
        (s, .error (.transactionError "Deduct amount must be positive and non-zero" none))
      else
        match validateAction action with
        | some e => (s, .error e)
        | none =>
          let b := (s.kv (balKey userId)).getD 0
          if b < a then
            (s, .error (handleDeductError a txId (insufficientMsg b)))
          else
            let tx : Transaction := ⟨txId, -a, action, meta, ts⟩
            (⟨upd s.kv (balKey userId) (some (b - a)),
              upd s.zset (txsKey userId) (zadd (s.zset (txsKey userId)) tx)⟩,
             .ok ⟨txId, b - a, ts⟩)

/-- add (client.ts lines 229-300): like deduct without the insufficiency
check; increments the balance and appends a positive transaction. -/
def add (s : Store) (userId : String) (amount : JSNum) (action : String)
    (txId : String) (meta : Option Meta) (ts : ℕ) :
    Store × Except CreditsError TxResult :=
  match validateUserId userId with
  | some e => (s, .error e)
  | none =>
    match amount with
    | .negInf => (s, .error (.transactionError "Add amount must be positive and non-zero" none))
    | .nan => (s, .error (.transactionError "Add amount must be a finite number" none))
    | .posInf => (s, .error (.transactionError "Add amount must be a finite number" none))
    | .num a =>
      if a ≤ 0 then
        (s, .error (.transactionError "Add amount must be positive and non-zero" none))
      else
        match validateAction action with
        | some e => (s, .error e)
        | none =>
          let b := (s.kv (balKey userId)).getD 0
          let tx : Transaction := ⟨txId, a, action, meta, ts⟩
          (⟨upd s.kv (balKey userId) (some (b + a)),
            upd s.zset (txsKey userId) (zadd (s.zset (txsKey userId)) tx)⟩,
           .ok ⟨txId, b + a, ts⟩)

/-- getBalance (client.ts lines 309-315): a scalar read, absence as zero. -/
def getBalance (s : Store) (userId : String) : Except CreditsError ℚ :=
  match validateUserId userId with
  | some e => .error e
  | none => .ok ((s.kv (balKey userId)).getD 0)

/-- verifyBalance (client.ts lines 360-379): recompute the balance by summing
the full log and compare exactly with the cached scalar. -/
def verifyBalance (s : Store) (userId : String) :
    Except CreditsError BalanceVerification :=
  match validateUserId userId with
  | some e => .error e
  | none =>
    let cached := (s.kv (balKey userId)).getD 0
    let calculated := txSum (s.zset (txsKey userId))
    .ok ⟨decide (cached - calculated = 0), cached, calculated, cached - calculated⟩

/-- rebuildBalance (client.ts lines 389-409): overwrite the cached balance
with the log sum, then re-verify; raise BalanceVerificationError if the
verification still fails. -/
def rebuildBalance (s : Store) (userId : String) :
    Store × Except CreditsError ℚ :=
  match validateUserId userId with
  | some e => (s, .error e)
  | none =>
    let correct := txSum (s.zset (txsKey userId))
    let s2 : Store := ⟨upd s.kv (balKey userId) (some correct), s.zset⟩
    match verifyBalance s2 userId with
    | .error e => (s2, .error e)
    | .ok v =>
      if v.valid then (s2, .ok correct)
      else
        (s2, .error (.balanceVerificationError
          ("Balance rebuild failed for user " ++ userId) userId v.cached v.calculated))

/-- ZRANGE key start stop BYSCORE REV over an ascending list: members whose
score lies in the closed interval from stop up to start, highest first.
Redis gives the empty answer whenever start is below stop. -/
def zrevByScore (l : List Transaction) (start stop : ℤ) : List Transaction :=
  (l.filter fun t => decide (stop ≤ (t.timestamp : ℤ)) && decide ((t.timestamp : ℤ) ≤ start)).reverse

/-- The LIMIT 0 count clause: a negative count means all members. -/
def redisLimit (l : List Transaction) (count : ℤ) : List Transaction :=
  if count < 0 then l else l.take count.toNat

/-- ZRANGE key 0 (n-1) REV over an ascending list: the n highest-ranked
members, highest first. -/
def zrevByRank (l : List Transaction) (n : ℕ) : List Transaction :=
  l.reverse.take n

/-- getTransactions as written in src/client.ts (lines 324-351): no limit
validation and no cap; a single score-bounded ZRANGE ... REV call whose
bounds are passed low-to-high, with the caller's limit as the count. -/
def getTransactionsSrc (s : Store) (userId : String) (limit : ℤ)
    (startTime endTime : Option ℕ) (now : ℕ) :
    Except CreditsError (List Transaction) :=
  match validateUserId userId with
  | some e => .error e
  | none =>
    let mn : ℤ := (startTime.getD 0 : ℕ)
    let mx : ℤ := (endTime.getD now : ℕ)
    .ok (redisLimit (zrevByScore (s.zset (txsKey userId)) mn mx) limit)

/-- getTransactions as shipped in the built client (dist/index.d.ts): the
limit must be a positive integer, is capped at 1000, and with no time bounds
the query is rank-based; with time bounds the full matching score range is
fetched (bounds passed high-to-low) and then truncated to the cap. -/
def getTransactionsDist (s : Store) (userId : String) (limit : ℚ)
    (startTime endTime : Option ℕ) (now : ℕ) :
    Except CreditsError (List Transaction) :=
  match validateUserId userId with
  | some e => .error e
  | none =>
    if limit ≤ 0 ∨ limit.den ≠ 1 then
      .error (.transactionError "limit must be a positive integer" none)
    else
      let eff : ℕ := min limit.num.toNat 1000
      match startTime, endTime with
      | none, none => .ok (zrevByRank (s.zset (txsKey userId)) eff)
      | _, _ =>
        let mn : ℤ := (startTime.getD 0 : ℕ)
        let mx : ℤ := (endTime.getD now : ℕ)
        .ok ((zrevByScore (s.zset (txsKey userId)) mx mn).take eff)

/-- A pricing configuration entry (types.ts, interface PricingConfig). -/
structure PricingConfig where
  rate : ℚ
  unit : String
  calculate : ℚ → ℚ

/-- JS Math.ceil on an exact rational. -/
def jceil (q : ℚ) : ℚ := (⌈q⌉ : ℤ)

/-- The default metered-pricing table (pricing.ts lines 10-21). -/
def PRICING_CONFIG : String → Option PricingConfig := fun action =>
  if action = "video_generation" then
    some ⟨10, "second", fun seconds => jceil (seconds * 10)⟩
  else if action = "training_job" then
    some ⟨1000, "gpu_hour", fun hours => jceil (hours * 1000)⟩
  else none

/-- The config entry for video generation, for concrete instantiations. -/
def videoCfg : PricingConfig := ⟨10, "second", fun seconds => jceil (seconds * 10)⟩

/-- PricingEngine.calculateCost (pricing.ts lines 50-62): a configuration
error for an unknown action or a negative value, else the registered rate
function.  The negative-value message interpolates the offending number in
the source; that numeric rendering is left off here. -/
def calculateCost (config : String → Option PricingConfig) (action : String)
    (value : ℚ) : Except CreditsError ℚ :=
  match config action with
  | none => .error (.pricingConfigError
      ("No pricing configuration found for action: " ++ action) (some action))
  | some c =>
    if value < 0 then
      .error (.pricingConfigError "Value must be non-negative, got: " (some action))
    else
      .ok (c.calculate value)

/-- One ledger mutation, with its generated transaction id and timestamp made
explicit. -/
inductive Op where
  | init (u : String) (credits : JSNum) (txId : String) (ts : ℕ)
  | deduct (u : String) (amount : JSNum) (action : String) (txId : String)
      (meta : Option Meta) (ts : ℕ)
  | add (u : String) (amount : JSNum) (action : String) (txId : String)
      (meta : Option Meta) (ts : ℕ)

/-- The transaction id an operation would stamp on its log entry. -/
def Op.txId : Op → String
  | .init _ _ i _ => i
  | .deduct _ _ _ i _ _ => i
  | .add _ _ _ i _ _ => i

/-- State effect of one operation (failed calls leave the store unchanged). -/
def Op.apply (o : Op) (s : Store) : Store :=
  match o with
  | .init u c i ts => (initializeUser s u c i ts).1
  | .deduct u a act i m ts => (CreditsSDK.deduct s u a act i m ts).1
  | .add u a act i m ts => (CreditsSDK.add s u a act i m ts).1

/-- Run a sequence of operations from a starting store. -/
def runOps (s : Store) (ops : List Op) : Store :=
  ops.foldl (fun s2 o => o.apply s2) s

/-- The cache-coherence invariant: every user's cached balance equals the sum
of that user's log. -/
def balCoherent (s : Store) : Prop :=
  ∀ u : String, (s.kv (balKey u)).getD 0 = txSum (s.zset (txsKey u))

/-- Every transaction id in any log belongs to the given id set. -/
def logIdsIn (s : Store) (X : List String) : Prop :=
  ∀ k : String, ∀ t ∈ s.zset k, t.id ∈ X

/-- A store holding one user at balance 100 with an empty log (the state of
the insufficiency scenario in the spec). -/
def wBal100 : Store := ⟨upd emptyStore.kv (balKey "u") (some 100), emptyStore.zset⟩

/-- A transaction of amount 5 at timestamp 5, for concrete query states. -/
def wTx : Transaction := ⟨"t1", 5, "a", none, 5⟩

/-- A store whose user u has exactly one logged transaction, wTx. -/
def wOneTx : Store := ⟨emptyStore.kv, upd emptyStore.zset (txsKey "u") [wTx]⟩

/-- A store whose user u has 1001 logged transactions. -/
def wBigStore : Store :=
  ⟨emptyStore.kv, upd emptyStore.zset (txsKey "u") (List.replicate 1001 wTx)⟩

/-- A concrete operation sequence: initialize at 100, deduct 30, add 50. -/
def wOps : List Op :=
  [Op.init "u" (.num 100) "t1" 1,
   Op.deduct "u" (.num 30) "x" "t2" none 2,
   Op.add "u" (.num 50) "y" "t3" none 3]

/-! Helper lemmas: strings and keys. -/

theorem strDataAppend (a b : String) : (a ++ b).data = a.data ++ b.data := by
  cases a
  cases b
  rfl

theorem balKey_inj {u v : String} (h : balKey u = balKey v) : u = v := by
  unfold balKey at h
  have h2 : ("balance:" ++ u).data = ("balance:" ++ v).data := by rw [h]
  rw [strDataAppend, strDataAppend] at h2
  have h3 := List.append_cancel_left h2
  cases u
  cases v
  exact congrArg String.mk h3

theorem txsKey_inj {u v : String} (h : txsKey u = txsKey v) : u = v := by
  unfold txsKey at h
  have h2 : ("txs:" ++ u).data = ("txs:" ++ v).data := by rw [h]
  rw [strDataAppend, strDataAppend] at h2
  have h3 := List.append_cancel_left h2
  cases u
  cases v
  exact congrArg String.mk h3

/-! Helper lemmas: digit rendering and the parse round trip. -/

theorem charVal_digitCh {d : ℕ} (h : d < 10) : charVal (digitCh d) = d := by
  interval_cases d <;> rfl

theorem isDigit_digitCh {d : ℕ} (h : d < 10) : (digitCh d).isDigit = true := by
  interval_cases d <;> rfl

theorem isWsCh_digitCh {d : ℕ} (h : d < 10) : isWsCh (digitCh d) = false := by
  interval_cases d <;> rfl

theorem natChars_mem {n : ℕ} {c : Char} (hc : c ∈ natChars n) :
    ∃ d : ℕ, d < 10 ∧ c = digitCh d := by
  unfold natChars at hc
  by_cases h0 : n = 0
  · rw [if_pos h0] at hc
    simp only [List.mem_singleton] at hc
    exact ⟨0, by norm_num, hc⟩
  · rw [if_neg h0] at hc
    rw [List.mem_reverse, List.mem_map] at hc
    obtain ⟨d, hd, hdc⟩ := hc
    exact ⟨d, Nat.digits_lt_base (by norm_num) hd, hdc.symm⟩

theorem natChars_isDigit {n : ℕ} {c : Char} (hc : c ∈ natChars n) : c.isDigit = true := by
  obtain ⟨d, hd, rfl⟩ := natChars_mem hc
  exact isDigit_digitCh hd

theorem natChars_not_ws {n : ℕ} {c : Char} (hc : c ∈ natChars n) : isWsCh c = false := by
  obtain ⟨d, hd, rfl⟩ := natChars_mem hc
  exact isWsCh_digitCh hd

theorem natChars_ne_nil (n : ℕ) : natChars n ≠ [] := by
  unfold natChars
  by_cases h0 : n = 0
  · rw [if_pos h0]
    simp
  · rw [if_neg h0]
    simp [Nat.digits_ne_nil_iff_ne_zero.mpr h0]

theorem foldr_ofDigits (ds : List ℕ) (h : ∀ d ∈ ds, d < 10) :
    ds.foldr (fun d x => 10 * x + charVal (digitCh d)) 0 = Nat.ofDigits 10 ds := by
  induction ds with
  | nil => rfl
  | cons d ds ih =>
    have hd : d < 10 := h d (by simp)
    have ih2 := ih (fun e he => h e (by simp [he]))
    simp only [List.foldr_cons, ih2, Nat.ofDigits_cons, charVal_digitCh hd]
    ring

theorem parseNatChars_natChars (n : ℕ) : parseNatChars (natChars n) = n := by
  unfold natChars parseNatChars
  by_cases h0 : n = 0
  · rw [if_pos h0, h0]
    rfl
  · rw [if_neg h0]
    rw [← List.map_reverse, List.foldl_map, List.foldl_reverse]
    have h := foldr_ofDigits (Nat.digits 10 n) (fun d hd => Nat.digits_lt_base (by norm_num) hd)
    calc (Nat.digits 10 n).foldr (fun x y => 10 * y + charVal (digitCh x)) 0
        = Nat.ofDigits 10 (Nat.digits 10 n) := h
      _ = n := Nat.ofDigits_digits 10 n

/-! Helper lemmas: the insufficiency-regex scan. -/

theorem icLit_cons : icLit = 'I' :: icTail := rfl

theorem dropLit_self_append (p t : List Char) : dropLit p (p ++ t) = some t := by
  induction p with
  | nil => rfl
  | cons c cs ih => simp [dropLit, ih]

theorem dropLit_icLit_ne {c : Char} (h : c ≠ 'I') (cs : List Char) :
    dropLit icLit (c :: cs) = none := by
  rw [icLit_cons]
  unfold dropLit
  rw [if_neg h]

theorem scanMsg_cons (c : Char) (cs : List Char) :
    scanMsg (c :: cs) = scanStep (dropLit icLit (c :: cs)) (scanMsg cs) := by
  simp only [scanMsg]

theorem scanStep_none (k : Option (List Char × List Char)) : scanStep none k = k := rfl

theorem scanStep_some {rest : List Char} {cap : List Char × List Char}
    (h : capAfter rest = some cap) (k : Option (List Char × List Char)) :
    scanStep (some rest) k = some cap := by
  simp only [scanStep, h]

theorem scanMsg_cons_ne {c : Char} (h : c ≠ 'I') (cs : List Char) :
    scanMsg (c :: cs) = scanMsg cs := by
  rw [scanMsg_cons, dropLit_icLit_ne h, scanStep_none]

theorem scanMsg_lit {r : List Char} {cap : List Char × List Char}
    (h : capAfter r = some cap) : scanMsg (icLit ++ r) = some cap := by
  rw [icLit_cons, List.cons_append, scanMsg_cons, ← List.cons_append, ← icLit_cons,
    dropLit_self_append, scanStep_some h]

theorem icContains_cons_ne {c : Char} (h : c ≠ 'I') (cs : List Char) :
    icContains (c :: cs) = icContains cs := by
  simp only [icContains, dropLit_icLit_ne h, Option.isSome_none, Bool.false_or]

theorem icContains_lit (r : List Char) : icContains (icLit ++ r) = true := by
  rw [icLit_cons, List.cons_append]
  simp only [icContains]
  rw [← List.cons_append, ← icLit_cons, dropLit_self_append]
  simp

theorem capAfter_colon_digits {ds : List Char} (hne : ds ≠ [])
    (hdig : ∀ c ∈ ds, c.isDigit = true) (hws : ∀ c ∈ ds, isWsCh c = false) :
    capAfter (':' :: ds) = some (ds, []) := by
  unfold capAfter
  have hd : ds.dropWhile isWsCh = ds := by
    cases ds with
    | nil => rfl
    | cons c cs =>
      rw [List.dropWhile_cons_of_neg]
      simp [hws c (by simp)]
  have ht : ds.takeWhile Char.isDigit = ds := List.takeWhile_eq_self_iff.mpr hdig
  have hd2 : ds.dropWhile Char.isDigit = [] := List.dropWhile_eq_nil_iff.mpr hdig
  simp only [hd, ht, hd2, if_neg hne]

/-! Helper lemmas: the insufficiency message parses back to the balance. -/

theorem insufficientMsg_data {b : ℚ} (h : b.den = 1 ∧ 0 ≤ b.num ∧ b.num < 10 ^ 14) :
    (insufficientMsg b).data =
      'E' :: 'R' :: 'R' :: ' ' :: (icLit ++ (':' :: natChars b.num.toNat)) := by
  unfold insufficientMsg
  rw [strDataAppend, strDataAppend, strDataAppend]
  rw [show ("ERR " : String).data = ['E', 'R', 'R', ' '] from rfl]
  rw [show (":" : String).data = [':'] from rfl]
  rw [show ("INSUFFICIENT_CREDITS" : String).data = icLit from rfl]
  unfold qLuaStr
  rw [if_pos h]
  rfl

theorem icContains_insufficientMsg {b : ℚ}
    (h : b.den = 1 ∧ 0 ≤ b.num ∧ b.num < 10 ^ 14) :
    icContains (insufficientMsg b).data = true := by
  rw [insufficientMsg_data h, icContains_cons_ne (by decide), icContains_cons_ne (by decide),
    icContains_cons_ne (by decide), icContains_cons_ne (by decide), icContains_lit]

theorem parseAvailable_insufficientMsg {b : ℚ}
    (h : b.den = 1 ∧ 0 ≤ b.num ∧ b.num < 10 ^ 14) :
    parseAvailable (insufficientMsg b) = b := by
  unfold parseAvailable
  rw [insufficientMsg_data h, scanMsg_cons_ne (by decide), scanMsg_cons_ne (by decide),
    scanMsg_cons_ne (by decide), scanMsg_cons_ne (by decide),
    scanMsg_lit (capAfter_colon_digits (natChars_ne_nil _)
      (fun _ hc => natChars_isDigit hc) (fun _ hc => natChars_not_ws hc))]
  simp only [parseNatChars_natChars]
  have h1 : parseNatChars ([] : List Char) = 0 := rfl
  rw [h1]
  have h2 : ((b.num.toNat : ℕ) : ℚ) = ((b.num : ℤ) : ℚ) := by
    exact_mod_cast congrArg (fun z : ℤ => (z : ℚ)) (Int.toNat_of_nonneg h.2.1)
  have h3 : ((b.num : ℤ) : ℚ) = b := Rat.den_eq_one_iff b |>.mp h.1
  rw [h2, h3]
  norm_num

/-! Helper lemmas: branch behaviour of the client operations. -/

theorem deduct_insufficient {s : Store} {u act : String} {a : ℚ}
    (txId : String) (m : Option Meta) (ts : ℕ)
    (hu : validateUserId u = none) (hact : validateAction act = none) (ha : 0 < a)
    (hlt : (s.kv (balKey u)).getD 0 < a) :
    deduct s u (.num a) act txId m ts =
      (s, .error (handleDeductError a txId (insufficientMsg ((s.kv (balKey u)).getD 0)))) := by
  simp only [deduct, hu, hact, if_neg (not_le.mpr ha)]
  rw [if_pos hlt]

theorem deduct_success {s : Store} {u act : String} {a : ℚ}
    (txId : String) (m : Option Meta) (ts : ℕ)
    (hu : validateUserId u = none) (hact : validateAction act = none) (ha : 0 < a)
    (hge : ¬ (s.kv (balKey u)).getD 0 < a) :
    deduct s u (.num a) act txId m ts =
      (⟨upd s.kv (balKey u) (some ((s.kv (balKey u)).getD 0 - a)),
        upd s.zset (txsKey u) (zadd (s.zset (txsKey u)) ⟨txId, -a, act, m, ts⟩)⟩,
       .ok ⟨txId, (s.kv (balKey u)).getD 0 - a, ts⟩) := by
  simp only [deduct, hu, hact, if_neg (not_le.mpr ha)]
  rw [if_neg hge]

theorem add_success {s : Store} {u act : String} {a : ℚ}
    (txId : String) (m : Option Meta) (ts : ℕ)
    (hu : validateUserId u = none) (hact : validateAction act = none) (ha : 0 < a) :
    add s u (.num a) act txId m ts =
      (⟨upd s.kv (balKey u) (some ((s.kv (balKey u)).getD 0 + a)),
        upd s.zset (txsKey u) (zadd (s.zset (txsKey u)) ⟨txId, a, act, m, ts⟩)⟩,
       .ok ⟨txId, (s.kv (balKey u)).getD 0 + a, ts⟩) := by
  simp only [add, hu, hact, if_neg (not_le.mpr ha)]

theorem init_fresh {s : Store} {u : String} {X : ℚ}
    (txId : String) (ts : ℕ)
    (hu : validateUserId u = none) (hX : ¬ X < 0) (hb : s.kv (balKey u) = none) :
    initializeUser s u (.num X) txId ts =
      (⟨upd s.kv (balKey u) (some X),
        upd s.zset (txsKey u) (zadd (s.zset (txsKey u)) (genesisTx X txId ts))⟩,
       .ok ⟨txId, X, ts⟩) := by
  simp only [initializeUser, hu, hb, if_neg hX]

theorem init_existing {s : Store} {u : String} {X b : ℚ}
    (txId : String) (ts : ℕ)
    (hu : validateUserId u = none) (hX : ¬ X < 0) (hb : s.kv (balKey u) = some b) :
    initializeUser s u (.num X) txId ts = (s, .ok ⟨"already_initialized", b, ts⟩) := by
  simp only [initializeUser, hu, hb, if_neg hX]

theorem zadd_not_mem {l : List Transaction} {tx : Transaction} (h : tx ∉ l) :
    zadd l tx = l ++ [tx] := by
  unfold zadd
  rw [if_neg h]

theorem txSum_append (l : List Transaction) (tx : Transaction) :
    txSum (l ++ [tx]) = txSum l + tx.amount := by
  unfold txSum
  simp

/-! Helper lemmas: every operation either leaves the store unchanged or
performs the canonical balance-and-log update of its own user. -/

theorem op_apply_cases (o : Op) (s : Store) :
    o.apply s = s ∨
    ∃ (u : String) (tx : Transaction),
      tx.id = o.txId ∧
      o.apply s = ⟨upd s.kv (balKey u) (some ((s.kv (balKey u)).getD 0 + tx.amount)),
                   upd s.zset (txsKey u) (zadd (s.zset (txsKey u)) tx)⟩ := by
  cases o with
  | init u c i ts =>
    cases hv : validateUserId u with
    | some e => left; simp [Op.apply, initializeUser, hv]
    | none =>
      cases c with
      | nan => left; simp [Op.apply, initializeUser, hv]
      | posInf => left; simp [Op.apply, initializeUser, hv]
      | negInf => left; simp [Op.apply, initializeUser, hv]
      | num X =>
        by_cases hX : X < 0
        · left; simp [Op.apply, initializeUser, hv, hX]
        · cases hb : s.kv (balKey u) with
          | some b => left; rw [Op.apply, init_existing i ts hv hX hb]
          | none =>
            right
            refine ⟨u, genesisTx X i ts, rfl, ?_⟩
            rw [Op.apply, init_fresh i ts hv hX hb, hb]
            simp [genesisTx]
  | deduct u a act i m ts =>
    cases hv : validateUserId u with
    | some e => left; simp [Op.apply, deduct, hv]
    | none =>
      cases a with
      | nan => left; simp [Op.apply, deduct, hv]
      | posInf => left; simp [Op.apply, deduct, hv]
      | negInf => left; simp [Op.apply, deduct, hv]
      | num a =>
        by_cases ha : a ≤ 0
        · left; simp [Op.apply, deduct, hv, ha]
        · cases hact : validateAction act with
          | some e => left; simp [Op.apply, deduct, hv, if_neg ha, hact]
          | none =>
            by_cases hlt : (s.kv (balKey u)).getD 0 < a
            · left
              rw [Op.apply, deduct_insufficient i m ts hv hact (lt_of_not_le ha) hlt]
            · right
              refine ⟨u, ⟨i, -a, act, m, ts⟩, rfl, ?_⟩
              rw [Op.apply, deduct_success i m ts hv hact (lt_of_not_le ha) hlt]
              simp [sub_eq_add_neg]
  | add u a act i m ts =>
    cases hv : validateUserId u with
    | some e => left; simp [Op.apply, add, hv]
    | none =>
      cases a with
      | nan => left; simp [Op.apply, add, hv]
      | posInf => left; simp [Op.apply, add, hv]
      | negInf => left; simp [Op.apply, add, hv]
      | num a =>
        by_cases ha : a ≤ 0
        · left; simp [Op.apply, add, hv, ha]
        · cases hact : validateAction act with
          | some e => left; simp [Op.apply, add, hv, if_neg ha, hact]
          | none =>
            right
            refine ⟨u, ⟨i, a, act, m, ts⟩, rfl, ?_⟩
            rw [Op.apply, add_success i m ts hv hact (lt_of_not_le ha)]

/-! Helper lemmas: preservation of the cache-coherence invariant. -/

theorem invariant_upd (s : Store) (u : String) (tx : Transaction) (X : List String)
    (hb : balCoherent s) (hi : logIdsIn s X) (hf : tx.id ∉ X) :
    balCoherent ⟨upd s.kv (balKey u) (some ((s.kv (balKey u)).getD 0 + tx.amount)),
                 upd s.zset (txsKey u) (zadd (s.zset (txsKey u)) tx)⟩ ∧
    logIdsIn ⟨upd s.kv (balKey u) (some ((s.kv (balKey u)).getD 0 + tx.amount)),
              upd s.zset (txsKey u) (zadd (s.zset (txsKey u)) tx)⟩ (tx.id :: X) := by
  have hnm : tx ∉ s.zset (txsKey u) := fun hmem => hf (hi _ tx hmem)
  have hz := zadd_not_mem hnm
  constructor
  · intro u2
    by_cases he : u2 = u
    · subst he
      simp only [upd, eq_self_iff_true, if_true]
      rw [hz, txSum_append, ← hb u2]
      simp
    · have hne1 : balKey u2 ≠ balKey u := fun hh => he (balKey_inj hh)
      have hne2 : txsKey u2 ≠ txsKey u := fun hh => he (txsKey_inj hh)
      simp only [upd, if_neg hne1, if_neg hne2]
      exact hb u2
  · intro k t ht
    by_cases he : k = txsKey u
    · subst he
      simp only [upd, eq_self_iff_true, if_true] at ht
      rw [hz] at ht
      rcases List.mem_append.mp ht with h1 | h1
      · exact List.mem_cons_of_mem _ (hi _ t h1)
      · have : t = tx := by simpa using h1
        subst this
        exact List.mem_cons_self _ _
    · simp only [upd, if_neg he] at ht
      exact List.mem_cons_of_mem _ (hi _ t ht)

theorem invariant_step (s : Store) (o : Op) (X : List String)
    (hb : balCoherent s) (hi : logIdsIn s X) (hf : o.txId ∉ X) :
    balCoherent (o.apply s) ∧ logIdsIn (o.apply s) (o.txId :: X) := by
  rcases op_apply_cases o s with h | ⟨u, tx, hid, h⟩
  · rw [h]
    exact ⟨hb, fun k t ht => List.mem_cons_of_mem _ (hi k t ht)⟩
  · rw [h, ← hid]
    exact invariant_upd s u tx X hb hi (by rw [hid]; exact hf)

theorem runOps_cons (s : Store) (o : Op) (ops : List Op) :
    runOps s (o :: ops) = runOps (o.apply s) ops := rfl

theorem runOps_invariant : ∀ (ops : List Op) (s : Store) (X : List String),
    (ops.map Op.txId).Nodup → (∀ i ∈ ops.map Op.txId, i ∉ X) →
    balCoherent s → logIdsIn s X → balCoherent (runOps s ops) := by
  intro ops
  induction ops with
  | nil => intro s X _ _ hb _; exact hb
  | cons o rest ih =>
    intro s X hnd hdisj hb hi
    rw [runOps_cons]
    have hf : o.txId ∉ X := hdisj _ (by simp)
    obtain ⟨hb2, hi2⟩ := invariant_step s o X hb hi hf
    refine ih (o.apply s) (o.txId :: X) ?_ ?_ hb2 hi2
    · exact (List.nodup_cons.mp (by simpa using hnd)).2
    · intro i hi3
      rw [List.mem_cons]
      push_neg
      constructor
      · intro he
        subst he
        exact (List.nodup_cons.mp (by simpa using hnd)).1 hi3
      · exact hdisj i (by simp [hi3])

/-! Helper lemmas: repeated initialization is a no-op once the balance key
exists. -/

theorem init_apply_existing (c : JSNum) (i : String) (ts : ℕ) {s : Store} {u : String} {b : ℚ}
    (hb : s.kv (balKey u) = some b) : (Op.init u c i ts).apply s = s := by
  cases hv : validateUserId u with
  | some e => simp [Op.apply, initializeUser, hv]
  | none =>
    cases c with
    | nan => simp [Op.apply, initializeUser, hv]
    | posInf => simp [Op.apply, initializeUser, hv]
    | negInf => simp [Op.apply, initializeUser, hv]
    | num X =>
      by_cases hX : X < 0
      · simp [Op.apply, initializeUser, hv, hX]
      · rw [Op.apply, init_existing i ts hv hX hb]

theorem runOps_inits_existing : ∀ (calls : List (JSNum × String × ℕ)) {s : Store}
    {u : String} {b : ℚ}, s.kv (balKey u) = some b →
    runOps s (calls.map fun c => Op.init u c.1 c.2.1 c.2.2) = s := by
  intro calls
  induction calls with
  | nil => intro s u b _; rfl
  | cons c rest ih =>
    intro s u b hb
    rw [List.map_cons, runOps_cons, init_apply_existing c.1 c.2.1 c.2.2 hb]
    exact ih hb

/-! More helper lemmas for the claims. -/

theorem mem_upd_zadd {s : Store} {u k : String} {tx t : Transaction}
    {kv2 : String → Option ℚ}
    (ht : t ∈ (Store.mk kv2 (upd s.zset (txsKey u) (zadd (s.zset (txsKey u)) tx))).zset k) :
    t ∈ s.zset k ∨ t = tx := by
  simp only [upd] at ht
  by_cases he : k = txsKey u
  · rw [if_pos he] at ht
    unfold zadd at ht
    split at ht
    · left
      rw [he]
      exact ht
    · rcases List.mem_append.mp ht with h1 | h1
      · left
        rw [he]
        exact h1
      · right
        simpa using h1
  · rw [if_neg he] at ht
    left
    exact ht

theorem validateAction_shape {act : String} {e : CreditsError}
    (h : validateAction act = some e) : ∃ msg, e = .transactionError msg none := by
  unfold validateAction at h
  split at h
  · exact ⟨_, (Option.some_inj.mp h).symm⟩
  · split at h
    · exact ⟨_, (Option.some_inj.mp h).symm⟩
    · cases h

/-! The claims. -/

/-- C1: for a valid deduct call, when the current balance (absence read as
zero, here a natural number inside the modelled formatting envelope) is
strictly below the amount, the call returns InsufficientCreditsError carrying
required = amount and available = the current balance, with the store
untouched; otherwise it succeeds, the balance drops by exactly the amount,
and exactly one transaction of amount = -amount is appended to the log. -/
theorem C1_deduct_spec (s : Store) (u act txId : String) (a : ℚ) (m : Option Meta)
    (ts n : ℕ)
    (hu : validateUserId u = none) (hact : validateAction act = none) (ha : 0 < a)
    (hbal : (s.kv (balKey u)).getD 0 = (n : ℚ)) (hn : n < 10 ^ 14)
    (hfresh : ∀ t ∈ s.zset (txsKey u), t.id ≠ txId) :
    ((n : ℚ) < a →
      deduct s u (.num a) act txId m ts =
        (s, .error (.insufficientCredits a (n : ℚ)))) ∧
    (a ≤ (n : ℚ) →
      deduct s u (.num a) act txId m ts =
        (⟨upd s.kv (balKey u) (some ((n : ℚ) - a)),
          upd s.zset (txsKey u) (s.zset (txsKey u) ++ [⟨txId, -a, act, m, ts⟩])⟩,
         .ok ⟨txId, (n : ℚ) - a, ts⟩)) := by
  have henv : ((n : ℚ)).den = 1 ∧ 0 ≤ ((n : ℚ)).num ∧ ((n : ℚ)).num < 10 ^ 14 := by
    refine ⟨Rat.den_natCast n, ?_, ?_⟩
    · rw [Rat.num_natCast]
      exact Int.natCast_nonneg n
    · rw [Rat.num_natCast]
      exact_mod_cast hn
  constructor
  · intro hlt1
    have hlt : (s.kv (balKey u)).getD 0 < a := by rw [hbal]; exact hlt1
    rw [deduct_insufficient txId m ts hu hact ha hlt, hbal]
    unfold handleDeductError
    rw [if_pos (icContains_insufficientMsg henv), parseAvailable_insufficientMsg henv]
  · intro hge1
    have hge : ¬ (s.kv (balKey u)).getD 0 < a := by rw [hbal]; exact not_lt.mpr hge1
    rw [deduct_success txId m ts hu hact ha hge, hbal]
    have hnm : (⟨txId, -a, act, m, ts⟩ : Transaction) ∉ s.zset (txsKey u) :=
      fun hm => hfresh _ hm rfl
    rw [zadd_not_mem hnm]

theorem C1_deduct_spec_witness :
    validateUserId "u" = none ∧ validateAction "x" = none ∧ (0 : ℚ) < 200 ∧
    (wBal100.kv (balKey "u")).getD 0 = ((100 : ℕ) : ℚ) ∧ (100 : ℕ) < 10 ^ 14 ∧
    (∀ t ∈ wBal100.zset (txsKey "u"), t.id ≠ "t1") ∧
    (((100 : ℕ) : ℚ) < 200 →
      deduct wBal100 "u" (.num 200) "x" "t1" none 7 =
        (wBal100, .error (.insufficientCredits 200 ((100 : ℕ) : ℚ)))) := by
  have hu : validateUserId "u" = none := rfl
  have hact : validateAction "x" = none := rfl
  have ha : (0 : ℚ) < 200 := by norm_num
  have hbal : (wBal100.kv (balKey "u")).getD 0 = ((100 : ℕ) : ℚ) := by
    have : wBal100.kv (balKey "u") = some 100 := rfl
    rw [this]
    norm_num
  have hn : (100 : ℕ) < 10 ^ 14 := by norm_num
  have hfresh : ∀ t ∈ wBal100.zset (txsKey "u"), t.id ≠ "t1" := by
    intro t ht
    have : wBal100.zset (txsKey "u") = [] := rfl
    rw [this] at ht
    cases ht
  exact ⟨hu, hact, ha, hbal, hn, hfresh,
    (C1_deduct_spec wBal100 "u" "x" "t1" 200 none 7 100 hu hact ha hbal hn hfresh).1⟩

/-- C2: starting from a store in which the user is absent, after any sequence
of initialize, deduct and add operations (with distinct generated transaction
ids; failed calls leave the store untouched) the cached balance of every user
equals the sum of the amounts in that user's transaction log. -/
theorem C2_balance_eq_log_sum (ops : List Op) (u : String)
    (hnd : (ops.map Op.txId).Nodup) :
    ((runOps emptyStore ops).kv (balKey u)).getD 0 =
      txSum ((runOps emptyStore ops).zset (txsKey u)) := by
  have hb : balCoherent emptyStore := by
    intro u2
    simp [emptyStore, txSum]
  have hi : logIdsIn emptyStore [] := by
    intro k t ht
    simp [emptyStore] at ht
  exact runOps_invariant ops emptyStore [] hnd (by simp) hb hi u

theorem C2_balance_eq_log_sum_witness :
    (wOps.map Op.txId).Nodup ∧
    ((runOps emptyStore wOps).kv (balKey "u")).getD 0 =
      txSum ((runOps emptyStore wOps).zset (txsKey "u")) :=
  ⟨by decide, C2_balance_eq_log_sum wOps "u" (by decide)⟩

/-- C3: initialize on an absent user writes the starting balance and appends
exactly the genesis transaction; initialize on a present user returns the
existing balance unchanged under the sentinel no-op transaction id and
appends nothing; hence any nonempty sequence of initialize calls for one
user, run from the empty store, leaves the first call's balance, a
single-entry log, and exactly one user_initialized transaction. -/
theorem C3_initialize_idempotent :
    (∀ (s : Store) (u txId : String) (X : ℚ) (ts : ℕ),
      validateUserId u = none → 0 ≤ X → s.kv (balKey u) = none →
      (∀ t ∈ s.zset (txsKey u), t.id ≠ txId) →
      initializeUser s u (.num X) txId ts =
        (⟨upd s.kv (balKey u) (some X),
          upd s.zset (txsKey u) (s.zset (txsKey u) ++ [genesisTx X txId ts])⟩,
         .ok ⟨txId, X, ts⟩)) ∧
    (∀ (s : Store) (u txId : String) (X b : ℚ) (ts : ℕ),
      validateUserId u = none → 0 ≤ X → s.kv (balKey u) = some b →
      initializeUser s u (.num X) txId ts = (s, .ok ⟨"already_initialized", b, ts⟩)) ∧
    (∀ (u i0 : String) (X0 : ℚ) (ts0 : ℕ) (rest : List (JSNum × String × ℕ)),
      validateUserId u = none → 0 ≤ X0 →
      (runOps emptyStore (Op.init u (.num X0) i0 ts0 ::
          rest.map fun c => Op.init u c.1 c.2.1 c.2.2)).kv (balKey u) = some X0 ∧
      (runOps emptyStore (Op.init u (.num X0) i0 ts0 ::
          rest.map fun c => Op.init u c.1 c.2.1 c.2.2)).zset (txsKey u) =
        [genesisTx X0 i0 ts0] ∧
      ((runOps emptyStore (Op.init u (.num X0) i0 ts0 ::
          rest.map fun c => Op.init u c.1 c.2.1 c.2.2)).zset (txsKey u)).countP
          (fun t => t.action == "user_initialized") = 1) := by
  refine ⟨?_, ?_, ?_⟩
  · intro s u txId X ts hu hX hb hfresh
    rw [init_fresh txId ts hu (not_lt.mpr hX) hb]
    have hnm : genesisTx X txId ts ∉ s.zset (txsKey u) := fun hm => hfresh _ hm rfl
    rw [zadd_not_mem hnm]
  · intro s u txId X b ts hu hX hb
    exact init_existing txId ts hu (not_lt.mpr hX) hb
  · intro u i0 X0 ts0 rest hu hX
    rw [runOps_cons]
    have h1 : (Op.init u (.num X0) i0 ts0).apply emptyStore =
        ⟨upd emptyStore.kv (balKey u) (some X0),
         upd emptyStore.zset (txsKey u) [genesisTx X0 i0 ts0]⟩ := by
      rw [Op.apply, init_fresh i0 ts0 hu (not_lt.mpr hX) rfl]
      have : zadd (emptyStore.zset (txsKey u)) (genesisTx X0 i0 ts0) =
          [genesisTx X0 i0 ts0] := by
        simp [emptyStore, zadd]
      rw [this]
    rw [h1]
    have hkv : (Store.mk (upd emptyStore.kv (balKey u) (some X0))
        (upd emptyStore.zset (txsKey u) [genesisTx X0 i0 ts0])).kv (balKey u) =
        some X0 := by
      simp [upd]
    rw [runOps_inits_existing rest hkv]
    refine ⟨hkv, ?_, ?_⟩
    · simp [upd]
    · simp [upd, genesisTx]

theorem C3_initialize_idempotent_witness :
    validateUserId "u" = none ∧ (0 : ℚ) ≤ 50 ∧ wBal100.kv (balKey "u") = some 100 ∧
    initializeUser wBal100 "u" (.num 50) "t9" 4 =
      (wBal100, .ok ⟨"already_initialized", 100, 4⟩) := by
  have hu : validateUserId "u" = none := rfl
  have hX : (0 : ℚ) ≤ 50 := by norm_num
  have hb : wBal100.kv (balKey "u") = some 100 := rfl
  exact ⟨hu, hX, hb, C3_initialize_idempotent.2.1 wBal100 "u" "t9" 50 100 4 hu hX hb⟩

/-- C4 counterexample: initialize with starting balance 0 is accepted and
appends a genesis transaction whose amount is exactly 0, so not every
appended transaction has a nonzero amount. -/
theorem C4_counterexample :
    (initializeUser emptyStore "u" (.num 0) "t1" 3).2 = .ok ⟨"t1", 0, 3⟩ ∧
    ((initializeUser emptyStore "u" (.num 0) "t1" 3).1.zset (txsKey "u")).map
      Transaction.amount = [0] := by
  have h := @init_fresh emptyStore "u" 0 "t1" 3 rfl (by norm_num) rfl
  rw [h]
  constructor
  · rfl
  · simp [upd, zadd, genesisTx, emptyStore]

/-- C4 amended: every transaction a deduct appends has a strictly negative
amount and every transaction an add appends has a strictly positive amount
(hence nonzero); a transaction appended by initialize is the genesis record,
whose amount is the starting balance: nonnegative, and zero exactly when the
user was initialized with zero credits. -/
theorem C4_amended_amount_signs (s : Store) (o : Op) (k : String) (t : Transaction)
    (ht : t ∈ (o.apply s).zset k) :
    t ∈ s.zset k ∨
    (match o with
     | .init _ _ _ _ => t.action = "user_initialized" ∧ 0 ≤ t.amount
     | .deduct _ _ _ _ _ _ => t.amount < 0
     | .add _ _ _ _ _ _ => 0 < t.amount) := by
  cases o with
  | init u c i ts =>
    cases hv : validateUserId u with
    | some e => left; simp only [Op.apply, initializeUser, hv] at ht; exact ht
    | none =>
      cases c with
      | nan => left; simp only [Op.apply, initializeUser, hv] at ht; exact ht
      | posInf => left; simp only [Op.apply, initializeUser, hv] at ht; exact ht
      | negInf => left; simp only [Op.apply, initializeUser, hv] at ht; exact ht
      | num X =>
        by_cases hX : X < 0
        · left
          simp only [Op.apply, initializeUser, hv, if_pos hX] at ht
          exact ht
        · cases hb : s.kv (balKey u) with
          | some b =>
            left
            rw [Op.apply, init_existing i ts hv hX hb] at ht
            exact ht
          | none =>
            rw [Op.apply, init_fresh i ts hv hX hb] at ht
            rcases mem_upd_zadd ht with h1 | h1
            · left; exact h1
            · right
              subst h1
              exact ⟨rfl, not_lt.mp hX⟩
  | deduct u a act i m ts =>
    cases hv : validateUserId u with
    | some e => left; simp only [Op.apply, deduct, hv] at ht; exact ht
    | none =>
      cases a with
      | nan => left; simp only [Op.apply, deduct, hv] at ht; exact ht
      | posInf => left; simp only [Op.apply, deduct, hv] at ht; exact ht
      | negInf => left; simp only [Op.apply, deduct, hv] at ht; exact ht
      | num a =>
        by_cases ha : a ≤ 0
        · left
          simp only [Op.apply, deduct, hv, if_pos ha] at ht
          exact ht
        · cases hact : validateAction act with
          | some e =>
            left
            simp only [Op.apply, deduct, hv, if_neg ha, hact] at ht
            exact ht
          | none =>
            by_cases hlt : (s.kv (balKey u)).getD 0 < a
            · left
              rw [Op.apply, deduct_insufficient i m ts hv hact (lt_of_not_le ha) hlt] at ht
              exact ht
            · rw [Op.apply, deduct_success i m ts hv hact (lt_of_not_le ha) hlt] at ht
              rcases mem_upd_zadd ht with h1 | h1
              · left; exact h1
              · right
                subst h1
                simpa using lt_of_not_le ha
  | add u a act i m ts =>
    cases hv : validateUserId u with
    | some e => left; simp only [Op.apply, add, hv] at ht; exact ht
    | none =>
      cases a with
      | nan => left; simp only [Op.apply, add, hv] at ht; exact ht
      | posInf => left; simp only [Op.apply, add, hv] at ht; exact ht
      | negInf => left; simp only [Op.apply, add, hv] at ht; exact ht
      | num a =>
        by_cases ha : a ≤ 0
        · left
          simp only [Op.apply, add, hv, if_pos ha] at ht
          exact ht
        · cases hact : validateAction act with
          | some e =>
            left
            simp only [Op.apply, add, hv, if_neg ha, hact] at ht
            exact ht
          | none =>
            rw [Op.apply, add_success i m ts hv hact (lt_of_not_le ha)] at ht
            rcases mem_upd_zadd ht with h1 | h1
            · left; exact h1
            · right
              subst h1
              exact lt_of_not_le ha

theorem C4_amended_amount_signs_witness :
    (⟨"t3", 50, "y", none, 3⟩ : Transaction) ∈
      ((Op.add "u" (.num 50) "y" "t3" none 3).apply emptyStore).zset (txsKey "u") ∧
    ((⟨"t3", 50, "y", none, 3⟩ : Transaction) ∈ emptyStore.zset (txsKey "u") ∨
      (0 : ℚ) < (⟨"t3", 50, "y", none, 3⟩ : Transaction).amount) := by
  have hmem : (⟨"t3", 50, "y", none, 3⟩ : Transaction) ∈
      ((Op.add "u" (.num 50) "y" "t3" none 3).apply emptyStore).zset (txsKey "u") := by
    have hu : validateUserId "u" = none := rfl
    have hact : validateAction "y" = none := rfl
    rw [Op.apply, add_success "t3" none 3 hu hact (by norm_num)]
    have hz : zadd (emptyStore.zset (txsKey "u"))
        ⟨"t3", 50, "y", none, 3⟩ = [⟨"t3", 50, "y", none, 3⟩] := by
      simp [emptyStore, zadd]
    simp only [upd, eq_self_iff_true, if_true, hz]
    simp
  exact ⟨hmem,
    C4_amended_amount_signs emptyStore (Op.add "u" (.num 50) "y" "t3" none 3)
      (txsKey "u") ⟨"t3", 50, "y", none, 3⟩ hmem⟩

/-- C5 counterexample: the amount 5/2 is not an integer, yet deduct accepts
it, reaches the store, succeeds, and records a fractional transaction, so
non-integer amounts are not rejected with a validation error. -/
theorem C5_counterexample :
    (¬ ∃ z : ℤ, ((5 : ℚ) / 2) = (z : ℚ)) ∧
    (deduct wBal100 "u" (.num (5 / 2)) "x" "t1" none 7).2 =
      .ok ⟨"t1", 100 - 5 / 2, 7⟩ ∧
    (deduct wBal100 "u" (.num (5 / 2)) "x" "t1" none 7).1.zset (txsKey "u") =
      [⟨"t1", -(5 / 2), "x", none, 7⟩] := by
  have hu : validateUserId "u" = none := rfl
  have hact : validateAction "x" = none := rfl
  have hbal : wBal100.kv (balKey "u") = some 100 := rfl
  have hge : ¬ (wBal100.kv (balKey "u")).getD 0 < (5 : ℚ) / 2 := by
    rw [hbal]
    norm_num
  have hd := @deduct_success wBal100 "u" "x" (5 / 2)
    "t1" none 7 hu hact (by norm_num) hge
  refine ⟨?_, ?_, ?_⟩
  · rintro ⟨z, hz⟩
    have h5 : (5 : ℚ) = 2 * (z : ℚ) := by
      rw [div_eq_iff (by norm_num : (2 : ℚ) ≠ 0)] at hz
      linarith [hz]
    have h5z : (5 : ℤ) = 2 * z := by exact_mod_cast h5
    omega
  · rw [hd, hbal]
    norm_num
  · rw [hd]
    have hz : zadd (wBal100.zset (txsKey "u"))
        ⟨"t1", -(5 / 2), "x", none, 7⟩ = [⟨"t1", -(5 / 2), "x", none, 7⟩] := by
      simp [wBal100, emptyStore, zadd]
    simp only [upd, eq_self_iff_true, if_true]
    exact hz

/-- C5 amended: a deduct or add whose amount fails the implemented checks
(non-positive under JS comparison, or non-finite) or whose action is empty
or whitespace is rejected by the client-side validation phase with a
TransactionError (the implementation's validation-error class) before the
store is consulted, and the store is returned unchanged; amounts are not
checked for integrality. -/
theorem C5_amended_validation (s : Store) (u act txId : String) (amount : JSNum)
    (m : Option Meta) (ts : ℕ) (hu : validateUserId u = none)
    (hbad : amount.leZero = true ∨ amount.isFinite = false ∨ validateAction act ≠ none) :
    (∃ msg, deduct s u amount act txId m ts = (s, .error (.transactionError msg none))) ∧
    (∃ msg, add s u amount act txId m ts = (s, .error (.transactionError msg none))) := by
  cases amount with
  | negInf =>
    exact ⟨⟨"Deduct amount must be positive and non-zero", by simp [deduct, hu]⟩,
           ⟨"Add amount must be positive and non-zero", by simp [add, hu]⟩⟩
  | nan =>
    exact ⟨⟨"Deduct amount must be a finite number", by simp [deduct, hu]⟩,
           ⟨"Add amount must be a finite number", by simp [add, hu]⟩⟩
  | posInf =>
    exact ⟨⟨"Deduct amount must be a finite number", by simp [deduct, hu]⟩,
           ⟨"Add amount must be a finite number", by simp [add, hu]⟩⟩
  | num a =>
    by_cases ha : a ≤ 0
    · exact ⟨⟨"Deduct amount must be positive and non-zero", by simp [deduct, hu, ha]⟩,
             ⟨"Add amount must be positive and non-zero", by simp [add, hu, ha]⟩⟩
    · rcases hbad with hb1 | hb1 | hb1
      · exfalso
        simp only [JSNum.leZero, decide_eq_true_eq] at hb1
        exact ha hb1
      · exfalso
        simp [JSNum.isFinite] at hb1
      · rcases hva : validateAction act with _ | e
        · exact absurd hva hb1
        · obtain ⟨msg, rfl⟩ := validateAction_shape hva
          exact ⟨⟨msg, by simp [deduct, hu, if_neg ha, hva]⟩,
                 ⟨msg, by simp [add, hu, if_neg ha, hva]⟩⟩

theorem C5_amended_validation_witness :
    validateUserId "u" = none ∧
    (JSNum.leZero (.num 0) = true ∨ (JSNum.num 0).isFinite = false ∨
      validateAction "x" ≠ none) ∧
    ((∃ msg, deduct emptyStore "u" (.num 0) "x" "t1" none 1 =
        (emptyStore, .error (.transactionError msg none))) ∧
     (∃ msg, add emptyStore "u" (.num 0) "x" "t1" none 1 =
        (emptyStore, .error (.transactionError msg none)))) := by
  have hu : validateUserId "u" = none := rfl
  have hbad : JSNum.leZero (.num 0) = true ∨ (JSNum.num 0).isFinite = false ∨
      validateAction "x" ≠ none := Or.inl (by simp [JSNum.leZero])
  exact ⟨hu, hbad, C5_amended_validation emptyStore "u" "x" "t1" (.num 0) none 1 hu hbad⟩

/-- C6, behaviour of the code as written in src/client.ts: the caller's limit
is forwarded to the store with no positive-integer check and no 1000 cap.
With a score window supplied in the store's expected high-to-low order the
call returns 1001 transactions, above the documented cap, and a limit of 0 is
accepted rather than rejected. -/
theorem C6_src_limit_unchecked :
    getTransactionsSrc wBigStore "u" 1001 (some 1000000) (some 0) 7 =
      .ok (List.replicate 1001 wTx) ∧
    1000 < (List.replicate 1001 wTx).length ∧
    getTransactionsSrc wOneTx "u" 0 none none 10 = .ok [] := by
  have hu : validateUserId "u" = none := rfl
  refine ⟨?_, by rw [List.length_replicate]; norm_num, ?_⟩
  · have hz : wBigStore.zset (txsKey "u") = List.replicate 1001 wTx := by
      show upd emptyStore.zset (txsKey "u") (List.replicate 1001 wTx) (txsKey "u") = _
      unfold upd
      rw [if_pos rfl]
    simp only [getTransactionsSrc, hu, hz, Option.getD_some]
    unfold zrevByScore redisLimit
    rw [List.filter_replicate]
    have hp : (decide (((0 : ℕ) : ℤ) ≤ (wTx.timestamp : ℤ)) &&
        decide ((wTx.timestamp : ℤ) ≤ ((1000000 : ℕ) : ℤ))) = true := by
      norm_num [wTx]
    rw [if_pos hp]
    rw [if_neg (by norm_num : ¬ (1001 : ℤ) < 0)]
    rw [List.reverse_replicate]
    rw [show Int.toNat 1001 = 1001 from rfl]
    rw [List.take_replicate]
    norm_num
  · have hz : wOneTx.zset (txsKey "u") = [wTx] := rfl
    simp only [getTransactionsSrc, hu, hz, Option.getD_some, Option.getD_none]
    unfold zrevByScore redisLimit
    norm_num [wTx]

/-- C7: for a valid user, rebuildBalance overwrites the cached balance with
the sum of the log and returns that sum, and verifyBalance performed on the
resulting store reports valid = true with zero difference; in this
sequential model the defensive ReconciliationFailure branch is never
taken. -/
theorem C7_rebuild_roundtrip (s : Store) (u : String)
    (hu : validateUserId u = none) :
    rebuildBalance s u =
      (⟨upd s.kv (balKey u) (some (txSum (s.zset (txsKey u)))), s.zset⟩,
       .ok (txSum (s.zset (txsKey u)))) ∧
    verifyBalance
        (⟨upd s.kv (balKey u) (some (txSum (s.zset (txsKey u)))), s.zset⟩ : Store) u =
      .ok ⟨true, txSum (s.zset (txsKey u)), txSum (s.zset (txsKey u)), 0⟩ := by
  have hver : verifyBalance
      (⟨upd s.kv (balKey u) (some (txSum (s.zset (txsKey u)))), s.zset⟩ : Store) u =
      .ok ⟨true, txSum (s.zset (txsKey u)), txSum (s.zset (txsKey u)), 0⟩ := by
    simp only [verifyBalance, hu]
    simp [upd]
  refine ⟨?_, hver⟩
  simp only [rebuildBalance, hu, hver]
  rfl

theorem C7_rebuild_roundtrip_witness :
    validateUserId "u" = none ∧ txSum (wOneTx.zset (txsKey "u")) = 5 ∧
    rebuildBalance wOneTx "u" =
      (⟨upd wOneTx.kv (balKey "u") (some 5), wOneTx.zset⟩, .ok 5) ∧
    verifyBalance (⟨upd wOneTx.kv (balKey "u") (some 5), wOneTx.zset⟩ : Store) "u" =
      .ok ⟨true, 5, 5, 0⟩ := by
  have hu : validateUserId "u" = none := rfl
  have h5 : txSum (wOneTx.zset (txsKey "u")) = 5 := by
    have : wOneTx.zset (txsKey "u") = [wTx] := rfl
    rw [this]
    simp [txSum, wTx]
  have h := C7_rebuild_roundtrip wOneTx "u" hu
  rw [h5] at h
  exact ⟨hu, h5, h.1, h.2⟩

/-- C8, behaviour of the code as written in src/client.ts: with no time
bounds the query is issued as a score-range scan whose bounds are passed
low-to-high although the store's reversed scan expects them high-to-low, so
on a store whose user has one logged transaction the call returns the empty
list instead of the most recent transaction. -/
theorem C8_src_query_empty :
    wOneTx.zset (txsKey "u") = [wTx] ∧
    getTransactionsSrc wOneTx "u" 1 none none 10 = .ok [] := by
  refine ⟨rfl, ?_⟩
  have hu : validateUserId "u" = none := rfl
  have hz : wOneTx.zset (txsKey "u") = [wTx] := rfl
  simp only [getTransactionsSrc, hu, hz, Option.getD_none, Option.getD_some]
  unfold zrevByScore redisLimit
  norm_num [wTx]

/-- C9: in the default pricing table every registered metered action computes
the ceiling of usage times its per-unit rate; in particular video generation
at rate 10 prices 5.5 units at 55; and calculateCost returns a
PricingConfigError exactly for unregistered actions or negative usage. -/
theorem C9_pricing_ceiling :
    (∀ (a : String) (c : PricingConfig) (v : ℚ), PRICING_CONFIG a = some c →
      0 ≤ v → calculateCost PRICING_CONFIG a v = .ok (jceil (v * c.rate))) ∧
    calculateCost PRICING_CONFIG "video_generation" (11 / 2) = .ok 55 ∧
    (∀ (a : String) (v : ℚ),
      (∃ e, calculateCost PRICING_CONFIG a v = .error e) ↔
        (PRICING_CONFIG a = none ∨ v < 0)) := by
  have hvideo : PRICING_CONFIG "video_generation" = some videoCfg := rfl
  refine ⟨?_, ?_, ?_⟩
  · intro a c v hc hv
    have hcc : c.calculate v = jceil (v * c.rate) := by
      unfold PRICING_CONFIG at hc
      by_cases h1 : a = "video_generation"
      · rw [if_pos h1] at hc
        obtain rfl : (⟨10, "second", fun seconds => jceil (seconds * 10)⟩ : PricingConfig) = c :=
          Option.some_inj.mp hc
        rfl
      · rw [if_neg h1] at hc
        by_cases h2 : a = "training_job"
        · rw [if_pos h2] at hc
          obtain rfl : (⟨1000, "gpu_hour", fun hours => jceil (hours * 1000)⟩ : PricingConfig) = c :=
            Option.some_inj.mp hc
          rfl
        · rw [if_neg h2] at hc
          cases hc
    simp only [calculateCost, hc, if_neg (not_lt.mpr hv), hcc]
  · simp only [calculateCost, hvideo]
    rw [if_neg (by norm_num : ¬ (11 : ℚ) / 2 < 0)]
    have : videoCfg.calculate (11 / 2) = jceil ((11 / 2) * 10) := rfl
    rw [this]
    have h55 : ((11 : ℚ) / 2) * 10 = 55 := by norm_num
    rw [h55]
    unfold jceil
    norm_num
  · intro a v
    constructor
    · rintro ⟨e, he⟩
      by_cases hc : PRICING_CONFIG a = none
      · exact Or.inl hc
      · right
        rcases Option.ne_none_iff_exists.mp hc with ⟨c, hc2⟩
        by_contra hv
        simp only [calculateCost, ← hc2, if_neg hv] at he
        cases he
    · intro h
      rcases h with h | h
      · exact ⟨.pricingConfigError ("No pricing configuration found for action: " ++ a)
          (some a), by simp [calculateCost, h]⟩
      · cases hc : PRICING_CONFIG a with
        | none =>
          exact ⟨.pricingConfigError ("No pricing configuration found for action: " ++ a)
            (some a), by simp [calculateCost, hc]⟩
        | some c =>
          exact ⟨.pricingConfigError "Value must be non-negative, got: " (some a),
            by simp [calculateCost, hc, if_pos h]⟩

theorem C9_pricing_ceiling_witness :
    PRICING_CONFIG "video_generation" = some videoCfg ∧ (0 : ℚ) ≤ 11 / 2 ∧
    calculateCost PRICING_CONFIG "video_generation" (11 / 2) =
      .ok (jceil ((11 / 2) * videoCfg.rate)) := by
  have hc : PRICING_CONFIG "video_generation" = some videoCfg := rfl
  have hv : (0 : ℚ) ≤ 11 / 2 := by norm_num
  exact ⟨hc, hv, C9_pricing_ceiling.1 "video_generation" videoCfg (11 / 2) hc hv⟩

/-- C10: whenever deduct's catch clause recognizes an insufficiency reply,
the error it raises carries available = the parseFloat of the regex capture,
a rational that defaults to 0 when nothing was captured, so the available
field is always a number; and the insufficiency reply produced by the script
always is recognized. -/
theorem C10_available_defaults_zero :
    (∀ (msg : String) (a : ℚ) (t : String), icContains msg.data = true →
      handleDeductError a t msg = .insufficientCredits a (parseAvailable msg)) ∧
    (∀ msg : String, scanMsg msg.data = none → parseAvailable msg = 0) ∧
    (∀ b : ℚ, b.den = 1 ∧ 0 ≤ b.num ∧ b.num < 10 ^ 14 →
      icContains (insufficientMsg b).data = true) := by
  refine ⟨?_, ?_, ?_⟩
  · intro msg a t h
    unfold handleDeductError
    rw [if_pos h]
  · intro msg h
    unfold parseAvailable
    rw [h]
  · intro b hb
    exact icContains_insufficientMsg hb

theorem C10_available_defaults_zero_witness :
    icContains ("ERR INSUFFICIENT_CREDITS:oops" : String).data = true ∧
    handleDeductError 200 "t1" "ERR INSUFFICIENT_CREDITS:oops" =
      .insufficientCredits 200 (parseAvailable "ERR INSUFFICIENT_CREDITS:oops") ∧
    scanMsg ("ERR INSUFFICIENT_CREDITS:oops" : String).data = none ∧
    parseAvailable "ERR INSUFFICIENT_CREDITS:oops" = 0 := by
  refine ⟨by decide, ?_, by decide, ?_⟩
  · exact C10_available_defaults_zero.1 "ERR INSUFFICIENT_CREDITS:oops" 200 "t1" (by decide)
  · exact C10_available_defaults_zero.2.1 "ERR INSUFFICIENT_CREDITS:oops" (by decide)

/-! Development theorems about the built client's getTransactions, the
version whose limit handling and rank-based query the spec describes. -/

theorem getTransactionsDist_le_cap (s : Store) (u : String) (limit : ℚ)
    (startTime endTime : Option ℕ) (now : ℕ) (l : List Transaction)
    (h : getTransactionsDist s u limit startTime endTime now = .ok l) :
    l.length ≤ 1000 := by
  unfold getTransactionsDist at h
  split at h
  · cases h
  · split at h
    · cases h
    · have hm : min limit.num.toNat 1000 ≤ 1000 := min_le_right _ _
      split at h
      · obtain rfl : zrevByRank (s.zset (txsKey u)) (min limit.num.toNat 1000) = l :=
          Except.ok.inj h
        unfold zrevByRank
        calc (List.take (min limit.num.toNat 1000) (s.zset (txsKey u)).reverse).length
            ≤ min limit.num.toNat 1000 := by
              rw [List.length_take]
              exact min_le_left _ _
          _ ≤ 1000 := hm
      · obtain rfl : (zrevByScore (s.zset (txsKey u)) ((endTime.getD now : ℕ) : ℤ)
            ((startTime.getD 0 : ℕ) : ℤ)).take (min limit.num.toNat 1000) = l :=
          Except.ok.inj h
        calc _ ≤ min limit.num.toNat 1000 := by
              rw [List.length_take]
              exact min_le_left _ _
          _ ≤ 1000 := hm

theorem getTransactionsDist_limit_rejected (s : Store) (u : String) (limit : ℚ)
    (startTime endTime : Option ℕ) (now : ℕ)
    (hu : validateUserId u = none) (hbad : limit ≤ 0 ∨ limit.den ≠ 1) :
    getTransactionsDist s u limit startTime endTime now =
      .error (.transactionError "limit must be a positive integer" none) := by
  simp only [getTransactionsDist, hu, if_pos hbad]

theorem getTransactionsDist_norange (s : Store) (u : String) (limit : ℚ) (now : ℕ)
    (hu : validateUserId u = none) (hok : ¬ (limit ≤ 0 ∨ limit.den ≠ 1)) :
    getTransactionsDist s u limit none none now =
      .ok (zrevByRank (s.zset (txsKey u)) (min limit.num.toNat 1000)) := by
  simp only [getTransactionsDist, hu, if_neg hok]

theorem zrevByRank_pairwise_desc {l : List Transaction}
    (h : l.Pairwise (fun a b => a.timestamp < b.timestamp)) (n : ℕ) :
    (zrevByRank l n).Pairwise (fun a b => b.timestamp < a.timestamp) := by
  unfold zrevByRank
  exact (List.pairwise_reverse.mpr h).sublist (List.take_sublist n l.reverse)

end CreditsSDK
